import Mathlib

/-!
# linux-input: a shallow embedding of `src/linux/linux-input.cpp`

The development follows the source file top to bottom: the wire record and the
constants, the two pure normalisers (`convert_time`, `convert_scan_code`), the
device rescan (`update_input_devices`), and the event loop of `main` with its
publish block.  Machine integers are `Nat`/`Int` with explicit reduction modulo
`2^16` / `2^64` where the C++ types truncate.  System and library calls
(libevdev, epoll, Win32) are answered by explicit environment scripts.
-/

namespace LinuxInput

/-! ## Data model -/

/-- The `timeval` of an input event: seconds and microseconds, both signed 64-bit. -/
structure timeval where
  tv_sec : Int
  tv_usec : Int
  deriving DecidableEq, Repr

/-- The kernel `input_event` record delivered by `libevdev_next_event`. -/
structure input_event where
  time : timeval
  type : Nat
  code : Nat
  value : Int
  deriving DecidableEq, Repr

/-- The packed wire record `LinuxInputEvent` (source lines 18-23): `time` is the
`QuadPart` of the `LARGE_INTEGER`, `type` and `code` are `USHORT`, `value` is `int`. -/
structure LinuxInputEvent where
  time : Int
  type : Nat
  code : Nat
  value : Int
  deriving DecidableEq, Repr

/-- Source line 25. -/
def BUFFER_SIZE : Nat := 20

/-- Source line 26. -/
def MAX_EVENTS : Nat := 10

/-! Constants of the system headers used by the source. -/

/-- Event class "key" of `linux/input-event-codes.h`. -/
def EV_KEY : Nat := 1
/-- Event class "relative motion" of `linux/input-event-codes.h`. -/
def EV_REL : Nat := 2
/-- Bus type USB of `linux/input.h`. -/
def BUS_USB : Int := 0x03
/-- Bus type Bluetooth of `linux/input.h`. -/
def BUS_BLUETOOTH : Int := 0x05
/-- Bus type of the onboard keyboard controller of `linux/input.h`. -/
def BUS_I8042 : Int := 0x11
/-- Errno "interrupted system call". -/
def EINTR : Int := 4
/-- Errno "try again". -/
def EAGAIN : Int := 11
/-- Errno "no such device". -/
def ENODEV : Int := 19
/-- Win32 wait result: the object was acquired. -/
def WAIT_OBJECT_0 : Nat := 0
/-- Win32 wait result: the wait timed out. -/
def WAIT_TIMEOUT : Nat := 0x102

/-! ## Machine-integer conversions -/

/-- Conversion of a signed value to `ULONGLONG`: reduction modulo `2^64`. -/
def toULONGLONG (x : Int) : Nat := (x % 2 ^ 64).toNat

/-- Conversion of an unsigned 64-bit value to the signed `LONGLONG` `QuadPart`
(two's complement). -/
def toLONGLONG (n : Nat) : Int :=
  if n % 2 ^ 64 < 2 ^ 63 then ((n % 2 ^ 64 : Nat) : Int) else ((n % 2 ^ 64 : Nat) : Int) - 2 ^ 64

/-- Conversion to `USHORT`: reduction modulo `2^16`. -/
def toUSHORT (n : Nat) : Nat := n % 2 ^ 16

/-! ## Time/code normalisers (source lines 36-66) -/

/-- Source lines 36-40.  `static_cast<ULONGLONG>(t.tv_sec) + 11644473600` and the
multiplication by `10000000` are unsigned 64-bit operations; `t.tv_usec * 10` is
converted to `ULONGLONG` for the addition; the sum is stored in the signed
`QuadPart`. -/
def convert_time (t : timeval) : Int :=
  toLONGLONG
    ((((toULONGLONG t.tv_sec + 11644473600) % 2 ^ 64 * 10000000) % 2 ^ 64
      + toULONGLONG (t.tv_usec * 10)) % 2 ^ 64)

/-- Source lines 43-63: the zero-initialised array of `116 - 96 = 20` entries,
index `k` holding the entry of raw code `96 + k`. -/
def special_codes : List Nat :=
  [ 0xE01C  -- 96  KPENTER
  , 0xE01D  -- 97  RIGHTCTRL
  , 0xE035  -- 98  KPSLASH
  , 0       -- 99
  , 0xE038  -- 100 RIGHTALT
  , 0       -- 101
  , 0xE047  -- 102 HOME
  , 0xE048  -- 103 UP
  , 0xE049  -- 104 PAGEUP
  , 0xE04B  -- 105 LEFT
  , 0xE04D  -- 106 RIGHT
  , 0xE04F  -- 107 END
  , 0xE050  -- 108 DOWN
  , 0xE051  -- 109 PAGEDOWN
  , 0xE052  -- 110 INSERT
  , 0xE053  -- 111 DELETE
  , 0       -- 112
  , 0xE020  -- 113 MUTE
  , 0xE02E  -- 114 VOLUMEDOWN
  , 0xE030  -- 115 VOLUMEUP
  ]

/-- Source line 65. -/
def convert_scan_code (code : Nat) : Nat :=
  if code > 96 ∧ code < 116 then special_codes.getD (code - 96) 0 else code

/-! ## The publish block (source lines 266-289) -/

/-- Source lines 275-283: the scan `for (i = 0; i < BUFFER_SIZE; i++)`, with `n`
the number of iterations left and `i` the loop index.  The first slot whose
`type` is `0` receives the record and the loop breaks. -/
def publish_scan (r : LinuxInputEvent) :
    Nat → Nat → List LinuxInputEvent → List LinuxInputEvent
  | 0, _, shared => shared
  | n + 1, i, shared =>
    if (shared.getD i ⟨0, 0, 0, 0⟩).type = 0 then shared.set i r
    else publish_scan r n (i + 1) shared

/-- Source lines 270-271: the translated code; `has_rel` is the answer of
`libevdev_has_event_type(dev, EV_REL)`. -/
def translate_code (has_rel : Bool) (code : Nat) : Nat :=
  if has_rel then toUSHORT (code + 0x3000) else convert_scan_code code

/-- Source lines 266-289: the body run on the current `ev` after each read.
`waitResult` is the answer of `WaitForSingleObject(hMutex, 1000)`. -/
def publish_event (has_rel : Bool) (waitResult : Nat) (ev : input_event)
    (shared : List LinuxInputEvent) : List LinuxInputEvent :=
  if ev.type = EV_KEY ∧ ev.value ≠ 2 then
    if waitResult = WAIT_OBJECT_0 then
      publish_scan ⟨convert_time ev.time, ev.type, translate_code has_rel ev.code, ev.value⟩
        BUFFER_SIZE 0 shared
    else shared
  else shared

/-- The wire record the publish block builds from an event (source lines
267-271 and 277-280). -/
def wire_record (has_rel : Bool) (ev : input_event) : LinuxInputEvent :=
  ⟨convert_time ev.time, ev.type, translate_code has_rel ev.code, ev.value⟩

/-- The scan of the publish block on a list, head first: the first record whose
`type` is `0` is replaced by `r`. -/
def fill_first (r : LinuxInputEvent) : List LinuxInputEvent → List LinuxInputEvent
  | [] => []
  | x :: xs => if x.type = 0 then r :: xs else x :: fill_first r xs

/-- One run of the publish block: the device class, the answer of
`WaitForSingleObject` and the event in `ev`. -/
structure Publish where
  has_rel : Bool
  waitResult : Nat
  ev : input_event
  deriving DecidableEq, Repr

/-- Successive runs of the publish block on the shared array, with no
consumer activity in between. -/
def publish_seq : List Publish → List LinuxInputEvent → List LinuxInputEvent
  | [], shared => shared
  | p :: ps, shared => publish_seq ps (publish_event p.has_rel p.waitResult p.ev shared)

/-! ## Device registry (source lines 85-145) -/

/-- The part of a `libevdev` handle the program observes: `addr` is the address
of the handle (the value kept in `devices` and in `epoll_event.data.ptr`), `fd`
the answer of `libevdev_get_fd`, `bustype` the answer of
`libevdev_get_id_bustype`, `has_rel` the answer of
`libevdev_has_event_type(dev, EV_REL)`. -/
structure libevdev where
  addr : Nat
  fd : Int
  bustype : Int
  has_rel : Bool
  deriving DecidableEq, Repr

/-- Calls on descriptors and handles, recorded in program order. -/
inductive Call where
  | close (fd : Int)
  | libevdev_free (dev : libevdev)
  | epoll_add (fd : Int) (dev : libevdev)
  | epoll_del (fd : Int)
  | libevdev_has_event_pending (dev : libevdev)
  | libevdev_next_event (dev : libevdev)
  deriving DecidableEq, Repr

/-- The resources the program manipulates: the `devices` vector, the interest
list of `epoll_fd` (descriptor and `data.ptr` of each registration) and the
record of the calls made so far (oldest first). -/
structure State where
  devices : List libevdev
  epoll : List (Int × libevdev)
  calls : List Call
  deriving DecidableEq, Repr

/-- What the environment answers for one `readdir` entry: its name, the answer
of `open` (`-1` on failure), the answer `rc` of `libevdev_new_from_fd` with the
handle it creates, and the answer of `epoll_ctl(EPOLL_CTL_ADD)`. -/
structure DirEntry where
  d_name : List Char
  fd : Int
  rc : Int
  addr : Nat
  bustype : Int
  has_rel : Bool
  epoll_ctl : Int
  deriving DecidableEq, Repr

/-- The handle `libevdev_new_from_fd(fd, &dev)` creates for a directory entry. -/
def DirEntry.dev (e : DirEntry) : libevdev := ⟨e.addr, e.fd, e.bustype, e.has_rel⟩

/-- The system call `close(fd)`: recorded, and the kernel drops the descriptor
from the interest list of the epoll instance. -/
def sys_close (s : State) (fd : Int) : State :=
  { s with epoll := s.epoll.filter (fun r => decide (r.1 ≠ fd)),
           calls := s.calls ++ [Call.close fd] }

/-- The library call `libevdev_free(dev)`: recorded. -/
def sys_free (s : State) (dev : libevdev) : State :=
  { s with calls := s.calls ++ [Call.libevdev_free dev] }

/-- Source lines 88-94: the loop closing and freeing every tracked handle. -/
def release_devices : List libevdev → State → State
  | [], s => s
  | d :: ds, s =>
    if d.fd ≠ -1 then release_devices ds (sys_free (sys_close s d.fd) d)
    else release_devices ds s

/-- Source lines 106-140: the body of the `readdir` loop for one entry. -/
def scan_entry (s : State) (e : DirEntry) : State :=
  if [ 'e', 'v', 'e', 'n', 't' ].isPrefixOf e.d_name then
    if e.fd = -1 then s
    else if e.rc < 0 then sys_close s e.fd
    else if e.bustype = BUS_USB ∨ e.bustype = BUS_BLUETOOTH ∨ e.bustype = BUS_I8042 then
      let s1 := { s with devices := s.devices ++ [e.dev] }
      if e.epoll_ctl = -1 then sys_close (sys_free s1 e.dev) e.fd
      else { s1 with epoll := s1.epoll ++ [(e.fd, e.dev)],
                     calls := s1.calls ++ [Call.epoll_add e.fd e.dev] }
    else sys_close (sys_free s e.dev) e.fd
  else s

/-- Source lines 85-145.  `dir` is what `opendir`/`readdir` deliver: `none` when
`opendir` fails, otherwise the entries in `readdir` order.  Returns the new
state and the return value. -/
def update_input_devices (s : State) (dir : Option (List DirEntry)) : State × Int :=
  let s1 := { release_devices s.devices s with devices := [] }
  match dir with
  | none => (s1, 1)
  | some entries => (entries.foldl scan_entry s1, 0)

/-- The bus test of source line 124. -/
def eligible_bus (bus : Int) : Prop :=
  bus = BUS_USB ∨ bus = BUS_BLUETOOTH ∨ bus = BUS_I8042

/-! ## The event loop of `main` (source lines 147-314) -/

/-- What the environment answers during one iteration of the drain loop
(source lines 252-290) in which `libevdev_has_event_pending` was non-zero:
the answer `rc` of `libevdev_next_event`, the event it stores when it stores
one, the directory a rescan would see, and the answer of `WaitForSingleObject`. -/
structure ReadStep where
  rc : Int
  ev : input_event
  dir : Option (List DirEntry)
  waitResult : Nat
  deriving DecidableEq, Repr

/-- The variables the drain loop works on: the local `ev`, the resources, and
the mapped `shared_events` array. -/
structure Loop where
  ev : input_event
  st : State
  shared : List LinuxInputEvent
  deriving DecidableEq, Repr

/-- The content of `ev` after `libevdev_next_event` answered `rc`: the library
stores an event only when it answers `LIBEVDEV_READ_STATUS_SUCCESS` (0) or
`LIBEVDEV_READ_STATUS_SYNC` (1). -/
def next_event_store (rc : Int) (read : input_event) (ev : input_event) : input_event :=
  if rc = 0 ∨ rc = 1 then read else ev

deriving instance DecidableEq for Except

/-- Source lines 252-290: the loop `while (libevdev_has_event_pending(dev))`.
Each element of the script is one iteration in which the pending check was
non-zero; at the end of the script the check answers 0.  The result is
`Except.error 1` when `main` returns 1 from inside the loop. -/
def drain (dev : libevdev) : List ReadStep → Loop → Except Int Loop
  | [], l =>
    Except.ok { l with st := { l.st with
      calls := l.st.calls ++ [Call.libevdev_has_event_pending dev] } }
  | r :: rest, l =>
    let st0 : State := { l.st with
      calls := l.st.calls ++ [Call.libevdev_has_event_pending dev, Call.libevdev_next_event dev] }
    let ev := next_event_store r.rc r.ev l.ev
    if r.rc ≠ -EAGAIN ∧ r.rc ≠ 0 then
      if -r.rc = ENODEV then
        let u := update_input_devices st0 r.dir
        if u.2 > 0 then Except.error 1
        else drain dev rest ⟨ev, u.1, publish_event dev.has_rel r.waitResult ev l.shared⟩
      else Except.ok ⟨ev, st0, l.shared⟩
    else drain dev rest ⟨ev, st0, publish_event dev.has_rel r.waitResult ev l.shared⟩

/-- One entry of the `events` array filled by `epoll_wait`: the handle in
`data.ptr`, the content of the uninitialised local `ev`, and the script of the
drain loop on that handle. -/
structure Ready where
  dev : libevdev
  ev : input_event
  reads : List ReadStep
  deriving DecidableEq, Repr

/-- Source lines 248-291: the loop `for (n = 0; n < nfds; ++n)` over the ready
entries. -/
def drain_ready : List Ready → State → List LinuxInputEvent →
    Except Int (State × List LinuxInputEvent)
  | [], st, shared => Except.ok (st, shared)
  | r :: rest, st, shared =>
    match drain r.dev r.reads ⟨r.ev, st, shared⟩ with
    | Except.error c => Except.error c
    | Except.ok l => drain_ready rest l.st l.shared

/-- What the environment answers during one iteration of the main loop: the
value loaded from `should_quit`, the answer of `read(inotify_fd, ...)`, the
directory a rescan would see, the answer of `epoll_wait` with `errno`, and the
`events` array. -/
structure Iteration where
  should_quit : Bool
  inotify_len : Int
  dir : Option (List DirEntry)
  nfds : Int
  errno : Int
  events : List Ready
  deriving DecidableEq, Repr

/-- Source lines 296-301: the teardown loop over `devices`. -/
def teardown : List libevdev → State → State
  | [], s => s
  | d :: ds, s =>
    let s1 : State := { s with epoll := s.epoll.filter (fun r => decide (r.1 ≠ d.fd)),
                               calls := s.calls ++ [Call.epoll_del d.fd] }
    teardown ds (sys_close (sys_free s1 d) d.fd)

/-- The end of a run of `main`: the exit code with the final resources and
channel. -/
structure Exit where
  code : Int
  st : State
  shared : List LinuxInputEvent
  deriving DecidableEq, Repr

/-- Source lines 226-313: the loop `while (!should_quit.load())` followed by the
teardown and `return 0`.  The result is `none` when the script of iterations
ends while the loop is still running. -/
def main_loop : List Iteration → State → List LinuxInputEvent → Option Exit
  | [], _, _ => none
  | it :: rest, st, shared =>
    if it.should_quit then some ⟨0, teardown st.devices st, shared⟩
    else
      let u : State × Int :=
        if it.inotify_len > 0 then update_input_devices st it.dir else (st, 0)
      if it.inotify_len > 0 ∧ u.2 > 0 then some ⟨1, u.1, shared⟩
      else if it.nfds = -1 then
        if it.errno = EINTR then main_loop rest u.1 shared
        else some ⟨0, teardown u.1.devices u.1, shared⟩
      else
        match drain_ready (it.events.take it.nfds.toNat) u.1 shared with
        | Except.error c => some ⟨c, u.1, shared⟩
        | Except.ok p => main_loop rest p.1 p.2

/-! ## Theorems: the normalisers -/

/-- C1: for every 16-bit raw code outside the range 97-115 `convert_scan_code`
returns the code itself, and the sixteen documented codes inside the range
return their table values. -/
theorem convert_scan_code_outside_and_table (code : Nat) (h16 : code < 65536)
    (hout : code < 97 ∨ 115 < code) :
    convert_scan_code code = code ∧
    convert_scan_code 97 = 0xE01D ∧ convert_scan_code 98 = 0xE035 ∧
    convert_scan_code 100 = 0xE038 ∧ convert_scan_code 102 = 0xE047 ∧
    convert_scan_code 103 = 0xE048 ∧ convert_scan_code 104 = 0xE049 ∧
    convert_scan_code 105 = 0xE04B ∧ convert_scan_code 106 = 0xE04D ∧
    convert_scan_code 107 = 0xE04F ∧ convert_scan_code 108 = 0xE050 ∧
    convert_scan_code 109 = 0xE051 ∧ convert_scan_code 110 = 0xE052 ∧
    convert_scan_code 111 = 0xE053 ∧ convert_scan_code 113 = 0xE020 ∧
    convert_scan_code 114 = 0xE02E ∧ convert_scan_code 115 = 0xE030 := by
  refine ⟨?_, by decide⟩
  unfold convert_scan_code
  have hne : ¬ (code > 96 ∧ code < 116) := by omega
  rw [if_neg hne]

/-- Witness of C1 at the raw code 30 (key A) and the highest 16-bit value. -/
theorem convert_scan_code_outside_and_table_witness :
    convert_scan_code 30 = 30 ∧ convert_scan_code 65535 = 65535 :=
  ⟨(convert_scan_code_outside_and_table 30 (by decide) (Or.inl (by decide))).1,
   (convert_scan_code_outside_and_table 65535 (by decide) (Or.inr (by decide))).1⟩

/-- C2 (the code at the inputs where it departs from the claim): the table has
the entry `0xE01C` for raw code 96, yet `convert_scan_code 96` is 96; and the
reserved codes 99, 101 and 112 are translated to the zero entries of the table
instead of passing through. -/
theorem convert_scan_code_kpenter_and_reserved :
    special_codes.getD (96 - 96) 0 = 0xE01C ∧ convert_scan_code 96 = 96 ∧
    convert_scan_code 99 = 0 ∧ convert_scan_code 101 = 0 ∧ convert_scan_code 112 = 0 := by
  decide

/-- A value below `2^64` is unchanged by the conversion to `ULONGLONG`. -/
theorem toULONGLONG_natCast (n : Nat) (h : n < 2 ^ 64) : toULONGLONG (n : Int) = n := by
  unfold toULONGLONG
  have hmod : ((n : Int) % 2 ^ 64) = (n : Int) :=
    Int.emod_eq_of_lt (by omega) (by exact_mod_cast h)
  rw [hmod]; simp

/-- A value below `2^63` is unchanged by the conversion to `LONGLONG`. -/
theorem toLONGLONG_small (n : Nat) (h : n < 2 ^ 63) : toLONGLONG n = n := by
  unfold toLONGLONG
  have h2 : n % 2 ^ 64 = n := Nat.mod_eq_of_lt (by omega)
  rw [h2, if_pos h]

/-- No step of `convert_time` wraps when its arguments are natural numbers and
the exact result is below `2^63`. -/
theorem convert_time_natCast (n m : Nat)
    (hfit : (n + 11644473600) * 10000000 + m * 10 < 2 ^ 63) :
    convert_time ⟨n, m⟩ = (((n + 11644473600) * 10000000 + m * 10 : Nat) : Int) := by
  have e1 : toULONGLONG (n : Int) = n := toULONGLONG_natCast n (by omega)
  have e2 : toULONGLONG ((m : Int) * 10) = m * 10 := by
    have h := toULONGLONG_natCast (m * 10) (by omega)
    rw [← h]; congr 1
  have e3 : (n + 11644473600) % 2 ^ 64 = n + 11644473600 := Nat.mod_eq_of_lt (by omega)
  have e4 : ((n + 11644473600) * 10000000) % 2 ^ 64 = (n + 11644473600) * 10000000 :=
    Nat.mod_eq_of_lt (by omega)
  have e5 : ((n + 11644473600) * 10000000 + m * 10) % 2 ^ 64
      = (n + 11644473600) * 10000000 + m * 10 := Nat.mod_eq_of_lt (by omega)
  simp only [convert_time]
  rw [e1, e2, e3, e4, e5]
  exact toLONGLONG_small _ hfit

/-- C3: for seconds `≥ 0`, microseconds in `[0, 1000000)` and a result that fits
in a signed 64-bit integer, `convert_time` is exactly
`(seconds + 11644473600) * 10000000 + microseconds * 10`; the timestamp `(0, 0)`
yields `116444736000000000`. -/
theorem convert_time_exact (sec usec : Int) (hsec : 0 ≤ sec) (hlo : 0 ≤ usec)
    (hhi : usec < 1000000)
    (hfit : (sec + 11644473600) * 10000000 + usec * 10 < 2 ^ 63) :
    convert_time ⟨sec, usec⟩ = (sec + 11644473600) * 10000000 + usec * 10 ∧
    convert_time ⟨0, 0⟩ = 116444736000000000 := by
  refine ⟨?_, by decide⟩
  lift sec to Nat using hsec
  lift usec to Nat using hlo
  rw [convert_time_natCast sec usec (by exact_mod_cast hfit)]
  push_cast
  ring

/-- Witness of C3 at the timestamp 1700000000 s, 123456 us. -/
theorem convert_time_exact_witness :
    convert_time ⟨1700000000, 123456⟩ = 133444736001234560 :=
  (convert_time_exact 1700000000 123456 (by decide) (by decide) (by decide) (by decide)).1

/-! ## Theorems: the publish block -/

theorem fill_first_length (r : LinuxInputEvent) (xs : List LinuxInputEvent) :
    (fill_first r xs).length = xs.length := by
  induction xs with
  | nil => rfl
  | cons x xs ih =>
    unfold fill_first
    split <;> simp [ih]

/-- The index loop of the source agrees with the head-first scan from index `i`
on, as soon as the remaining iteration count covers the rest of the array. -/
theorem publish_scan_eq (r : LinuxInputEvent) (n : Nat) :
    ∀ (i : Nat) (shared : List LinuxInputEvent), shared.length ≤ i + n →
      publish_scan r n i shared = shared.take i ++ fill_first r (shared.drop i) := by
  induction n with
  | zero =>
    intro i shared h
    have hd : shared.drop i = [] := List.drop_eq_nil_of_le (by omega)
    have ht : shared.take i = shared := List.take_of_length_le (by omega)
    simp [publish_scan, hd, ht, fill_first]
  | succ n ih =>
    intro i shared h
    by_cases hi : i < shared.length
    · have hd : shared.drop i = shared[i] :: shared.drop (i + 1) := by
        simp
      have hg : shared.getD i ⟨0, 0, 0, 0⟩ = shared[i] := by
        simp [List.getD, List.getElem?_eq_getElem hi]
      unfold publish_scan
      rw [hg, hd]
      by_cases h0 : shared[i].type = 0
      · rw [if_pos h0]
        simp only [fill_first, if_pos h0]
        exact List.set_eq_take_append_cons_drop
          |>.trans (by simp [hi])
      · rw [if_neg h0]
        simp only [fill_first, if_neg h0]
        rw [ih (i + 1) shared (by omega)]
        rw [List.take_succ, List.getElem?_eq_getElem hi]
        simp only [Option.toList, List.append_assoc, List.singleton_append]
    · have hd : shared.drop i = [] := List.drop_eq_nil_of_le (by omega)
      have ht : shared.take i = shared := List.take_of_length_le (by omega)
      have hg : shared.getD i ⟨0, 0, 0, 0⟩ = ⟨0, 0, 0, 0⟩ := by
        simp [List.getD, List.getElem?_eq_none (by omega : shared.length ≤ i)]
      unfold publish_scan
      rw [hg, if_pos rfl, hd, ht]
      simp [fill_first]
      exact List.set_eq_of_length_le (by omega)

/-- The head-first scan writes `r` right after a run of occupied slots. -/
theorem fill_first_append (r x : LinuxInputEvent) (filled rest : List LinuxInputEvent)
    (hf : ∀ y ∈ filled, y.type ≠ 0) (hx : x.type = 0) :
    fill_first r (filled ++ x :: rest) = filled ++ r :: rest := by
  induction filled with
  | nil => simp [fill_first, hx]
  | cons y ys ih =>
    have hy : y.type ≠ 0 := hf y (List.mem_cons_self _ _)
    have hys : ∀ z ∈ ys, z.type ≠ 0 := fun z hz => hf z (List.mem_cons_of_mem _ hz)
    simp [fill_first, hy, ih hys]

/-- The head-first scan leaves a list without empty slot unchanged. -/
theorem fill_first_full (r : LinuxInputEvent) (filled : List LinuxInputEvent)
    (hf : ∀ y ∈ filled, y.type ≠ 0) : fill_first r filled = filled := by
  induction filled with
  | nil => rfl
  | cons y ys ih =>
    have hy : y.type ≠ 0 := hf y (List.mem_cons_self _ _)
    have hys : ∀ z ∈ ys, z.type ≠ 0 := fun z hz => hf z (List.mem_cons_of_mem _ hz)
    simp [fill_first, hy, ih hys]

/-- The head-first scan either changes nothing (no empty slot) or overwrites
exactly the lowest-index slot whose `type` is `0`. -/
theorem fill_first_spec (r : LinuxInputEvent) (xs : List LinuxInputEvent) :
    ((∀ y ∈ xs, y.type ≠ 0) ∧ fill_first r xs = xs) ∨
    ∃ i, i < xs.length ∧ (xs.getD i ⟨0, 0, 0, 0⟩).type = 0 ∧
      (∀ j, j < i → (xs.getD j ⟨0, 0, 0, 0⟩).type ≠ 0) ∧ fill_first r xs = xs.set i r := by
  induction xs with
  | nil => left; simp [fill_first]
  | cons x xs ih =>
    by_cases hx : x.type = 0
    · right
      refine ⟨0, by simp, by simpa using hx, ?_, by simp [fill_first, hx]⟩
      intro j hj; omega
    · rcases ih with ⟨hall, heq⟩ | ⟨i, hi, h0, hlt, heq⟩
      · left
        refine ⟨?_, by simp [fill_first, hx, heq]⟩
        intro y hy
        rcases List.mem_cons.mp hy with rfl | hy
        · exact hx
        · exact hall y hy
      · right
        refine ⟨i + 1, by simpa using hi, by simpa using h0, ?_, by simp [fill_first, hx, heq]⟩
        intro j hj
        cases j with
        | zero => simpa using hx
        | succ j => simpa using hlt j (by omega)

/-- The scan of the source, run for `BUFFER_SIZE` iterations from index 0 on an
array of at most `BUFFER_SIZE` slots, is the head-first scan. -/
theorem publish_scan_buffer (r : LinuxInputEvent) (shared : List LinuxInputEvent)
    (hlen : shared.length ≤ BUFFER_SIZE) :
    publish_scan r BUFFER_SIZE 0 shared = fill_first r shared := by
  have h := publish_scan_eq r BUFFER_SIZE 0 shared (by omega)
  simpa using h

/-- The publish block on an event that passes the filter, with the mutex
acquired, is the head-first scan with the event's wire record. -/
theorem publish_event_forwarded (has_rel : Bool) (ev : input_event)
    (shared : List LinuxInputEvent) (hlen : shared.length ≤ BUFFER_SIZE)
    (hkey : ev.type = EV_KEY) (hval : ev.value ≠ 2) :
    publish_event has_rel WAIT_OBJECT_0 ev shared = fill_first (wire_record has_rel ev) shared := by
  unfold publish_event
  rw [if_pos ⟨hkey, hval⟩, if_pos rfl]
  exact publish_scan_buffer _ shared hlen

/-- C4: with the mutex acquired and at least one slot of type 0 in the 20-slot
array, publishing a key event writes its time, type, translated code and value
into the lowest-index slot whose type is 0 and leaves every other slot
unchanged; a key press with code 30 and value 1 from a keyboard gives a record
with code 30, value 1 and non-zero type. -/
theorem publish_writes_lowest_empty (has_rel : Bool) (ev : input_event)
    (shared : List LinuxInputEvent) (hlen : shared.length = BUFFER_SIZE)
    (hkey : ev.type = EV_KEY) (hval : ev.value ≠ 2)
    (hempty : ∃ x ∈ shared, x.type = 0) :
    (∃ i, i < BUFFER_SIZE ∧ (shared.getD i ⟨0, 0, 0, 0⟩).type = 0 ∧
      (∀ j, j < i → (shared.getD j ⟨0, 0, 0, 0⟩).type ≠ 0) ∧
      publish_event has_rel WAIT_OBJECT_0 ev shared =
        shared.set i ⟨convert_time ev.time, ev.type, translate_code has_rel ev.code, ev.value⟩ ∧
      (∀ j, j ≠ i →
        (publish_event has_rel WAIT_OBJECT_0 ev shared).get? j = shared.get? j)) ∧
    (ev.code = 30 → ev.value = 1 → has_rel = false →
      (wire_record has_rel ev).code = 30 ∧ (wire_record has_rel ev).value = 1 ∧
      (wire_record has_rel ev).type ≠ 0) := by
  constructor
  · rw [publish_event_forwarded has_rel ev shared (by omega) hkey hval]
    rcases fill_first_spec (wire_record has_rel ev) shared with ⟨hall, _⟩ | ⟨i, hi, h0, hlt, heq⟩
    · obtain ⟨x, hx, hx0⟩ := hempty
      exact absurd hx0 (hall x hx)
    · refine ⟨i, by omega, h0, hlt, heq, ?_⟩
      intro j hj
      rw [heq]
      simp [List.getElem?_set, Ne.symm hj]
  · intro hc hv hr
    subst hr
    refine ⟨?_, hv, ?_⟩
    · simp only [wire_record, hc]; decide
    · simp only [wire_record, hkey]; decide

/-- Witness of C4: a key press (code 30, value 1) from a keyboard, published
into a channel whose slots 0 and 2 are occupied. -/
theorem publish_writes_lowest_empty_witness :
    ∃ i, i < BUFFER_SIZE ∧
      publish_event false WAIT_OBJECT_0 ⟨⟨0, 0⟩, EV_KEY, 30, 1⟩
        (⟨7, 1, 16, 1⟩ :: ⟨0, 0, 0, 0⟩ :: ⟨9, 1, 17, 0⟩ :: List.replicate 17 ⟨0, 0, 0, 0⟩)
      = (⟨7, 1, 16, 1⟩ :: ⟨0, 0, 0, 0⟩ :: ⟨9, 1, 17, 0⟩
          :: List.replicate 17 (⟨0, 0, 0, 0⟩ : LinuxInputEvent)).set i
          ⟨convert_time ⟨0, 0⟩, EV_KEY, translate_code false 30, 1⟩ :=
  let ⟨i, hi, _, _, heq, _⟩ := (publish_writes_lowest_empty false ⟨⟨0, 0⟩, EV_KEY, 30, 1⟩
    (⟨7, 1, 16, 1⟩ :: ⟨0, 0, 0, 0⟩ :: ⟨9, 1, 17, 0⟩ :: List.replicate 17 ⟨0, 0, 0, 0⟩)
    (by decide) (by decide) (by decide) ⟨⟨0, 0, 0, 0⟩, by decide, rfl⟩).1
  ⟨i, hi, heq⟩

/-- The publish block never changes the number of slots. -/
theorem publish_event_length (has_rel : Bool) (w : Nat) (ev : input_event)
    (shared : List LinuxInputEvent) (hlen : shared.length ≤ BUFFER_SIZE) :
    (publish_event has_rel w ev shared).length = shared.length := by
  unfold publish_event
  split
  · split
    · rw [publish_scan_buffer _ shared hlen, fill_first_length]
    · rfl
  · rfl

/-- The publish block, whatever the event and the wait result, leaves every
slot whose type is non-zero as it is. -/
theorem publish_event_keeps_occupied (has_rel : Bool) (w : Nat) (ev : input_event)
    (shared : List LinuxInputEvent) (hlen : shared.length ≤ BUFFER_SIZE)
    (i : Nat) (x : LinuxInputEvent) (hx : shared.get? i = some x) (hne : x.type ≠ 0) :
    (publish_event has_rel w ev shared).get? i = some x := by
  unfold publish_event
  split
  · split
    · rw [publish_scan_buffer _ shared hlen]
      rcases fill_first_spec
          ⟨convert_time ev.time, ev.type, translate_code has_rel ev.code, ev.value⟩ shared
        with ⟨_, heq⟩ | ⟨j, _, h0, _, heq⟩
      · rw [heq]; exact hx
      · rw [heq]
        have hji : j ≠ i := by
          intro hji
          subst hji
          have hget : shared.getD j ⟨0, 0, 0, 0⟩ = x := by
            rw [List.get?_eq_getElem?] at hx
            simp [List.getD, hx]
          rw [hget] at h0
          exact hne h0
        rw [List.get?_eq_getElem?, List.getElem?_set_ne hji, ← List.get?_eq_getElem?]
        exact hx
    · exact hx
  · exact hx

/-- The publish block leaves an array without empty slot unchanged. -/
theorem publish_event_full (has_rel : Bool) (w : Nat) (ev : input_event)
    (shared : List LinuxInputEvent) (hlen : shared.length ≤ BUFFER_SIZE)
    (hfull : ∀ y ∈ shared, y.type ≠ 0) :
    publish_event has_rel w ev shared = shared := by
  unfold publish_event
  split
  · split
    · rw [publish_scan_buffer _ shared hlen]
      exact fill_first_full _ shared hfull
    · rfl
  · rfl

/-- Forwarded events fill the empty tail of the array in publish order; the
events beyond the number of empty slots change nothing. -/
theorem publish_seq_fill (ps : List Publish) :
    ∀ (filled rest : List LinuxInputEvent),
      (∀ y ∈ filled, y.type ≠ 0) → (∀ y ∈ rest, y.type = 0) →
      filled.length + rest.length ≤ BUFFER_SIZE →
      (∀ p ∈ ps, p.ev.type = EV_KEY ∧ p.ev.value ≠ 2 ∧ p.waitResult = WAIT_OBJECT_0) →
      publish_seq ps (filled ++ rest) =
        filled ++ (ps.take rest.length).map (fun p => wire_record p.has_rel p.ev)
          ++ rest.drop ps.length := by
  induction ps with
  | nil => intro filled rest _ _ _ _; simp [publish_seq]
  | cons p ps ih =>
    intro filled rest hf hr hlen hfw
    obtain ⟨hk, hv, hw⟩ := hfw p (List.mem_cons_self _ _)
    have hfw2 : ∀ q ∈ ps, q.ev.type = EV_KEY ∧ q.ev.value ≠ 2 ∧ q.waitResult = WAIT_OBJECT_0 :=
      fun q hq => hfw q (List.mem_cons_of_mem _ hq)
    have hstep : publish_event p.has_rel p.waitResult p.ev (filled ++ rest)
        = fill_first (wire_record p.has_rel p.ev) (filled ++ rest) := by
      rw [hw]
      exact publish_event_forwarded p.has_rel p.ev (filled ++ rest)
        (by simpa using hlen) hk hv
    cases rest with
    | nil =>
      have hfull : fill_first (wire_record p.has_rel p.ev) (filled ++ []) = filled ++ [] := by
        apply fill_first_full
        simpa using hf
      simp only [publish_seq]
      rw [hstep, hfull, ih filled [] hf hr hlen hfw2]
      simp
    | cons x rest =>
      have hx : x.type = 0 := hr x (List.mem_cons_self _ _)
      have hr2 : ∀ y ∈ rest, y.type = 0 := fun y hy => hr y (List.mem_cons_of_mem _ hy)
      have hwt : (wire_record p.has_rel p.ev).type ≠ 0 := by
        simp only [wire_record, hk]; decide
      have hf2 : ∀ y ∈ filled ++ [wire_record p.has_rel p.ev], y.type ≠ 0 := by
        intro y hy
        rcases List.mem_append.mp hy with hy | hy
        · exact hf y hy
        · rw [List.mem_singleton.mp hy]; exact hwt
      simp only [publish_seq]
      rw [hstep, fill_first_append _ x filled rest hf hx]
      have hsplit : filled ++ wire_record p.has_rel p.ev :: rest
          = (filled ++ [wire_record p.has_rel p.ev]) ++ rest := by simp
      rw [hsplit, ih (filled ++ [wire_record p.has_rel p.ev]) rest hf2 hr2
        (by simp at hlen ⊢; omega) hfw2]
      simp

/-- Successive publishes keep every slot whose type is non-zero. -/
theorem publish_seq_keeps_occupied (ps : List Publish) :
    ∀ (shared : List LinuxInputEvent), shared.length ≤ BUFFER_SIZE →
      ∀ (i : Nat) (x : LinuxInputEvent), shared.get? i = some x → x.type ≠ 0 →
        (publish_seq ps shared).get? i = some x := by
  induction ps with
  | nil => intro shared _ i x hx _; exact hx
  | cons p ps ih =>
    intro shared hlen i x hx hne
    simp only [publish_seq]
    exact ih _ (by rw [publish_event_length _ _ _ _ hlen]; exact hlen) i x
      (publish_event_keeps_occupied _ _ _ shared hlen i x hx hne) hne

/-- C5: over any sequence of publishes without consumption no slot whose type is
non-zero is modified; from an all-empty 20-slot channel, `k` forwarded events
with the mutex acquired leave the first `min k 20` records in publish order in
the first slots and the remaining slots untouched, and once 20 have been
published every further publish leaves the whole array unchanged. -/
theorem publish_seq_bounded (ps : List Publish) (shared : List LinuxInputEvent)
    (hlen : shared.length = BUFFER_SIZE) :
    (∀ (i : Nat) (x : LinuxInputEvent), shared.get? i = some x → x.type ≠ 0 →
      (publish_seq ps shared).get? i = some x) ∧
    ((∀ y ∈ shared, y.type = 0) →
      (∀ p ∈ ps, p.ev.type = EV_KEY ∧ p.ev.value ≠ 2 ∧ p.waitResult = WAIT_OBJECT_0) →
      publish_seq ps shared =
        (ps.take BUFFER_SIZE).map (fun p => wire_record p.has_rel p.ev)
          ++ shared.drop (min ps.length BUFFER_SIZE) ∧
      (BUFFER_SIZE ≤ ps.length → ∀ q : Publish,
        publish_event q.has_rel q.waitResult q.ev (publish_seq ps shared)
          = publish_seq ps shared)) := by
  refine ⟨publish_seq_keeps_occupied ps shared (by omega), ?_⟩
  intro hempty hfw
  have hfill := publish_seq_fill ps [] shared (by simp) hempty (by simp; omega) hfw
  simp only [List.nil_append] at hfill
  have hdrop : shared.drop ps.length = shared.drop (min ps.length BUFFER_SIZE) := by
    by_cases hk : ps.length ≤ BUFFER_SIZE
    · rw [Nat.min_eq_left hk]
    · rw [Nat.min_eq_right (by omega), List.drop_eq_nil_of_le (by omega),
        List.drop_eq_nil_of_le (by omega)]
  rw [hlen, hdrop] at hfill
  refine ⟨hfill, ?_⟩
  intro hk q
  rw [hfill]
  apply publish_event_full
  · simp [List.length_take]; omega
  · intro y hy
    rcases List.mem_append.mp hy with hy | hy
    · obtain ⟨p, hp, rfl⟩ := List.mem_map.mp hy
      have hp2 := hfw p (List.mem_of_mem_take hp)
      simp only [wire_record, hp2.1]; decide
    · rw [Nat.min_eq_right hk, List.drop_eq_nil_of_le (by omega)] at hy
      exact absurd hy (List.not_mem_nil _)

/-- Witness of C5: 21 forwarded key presses published into an all-empty
channel. -/
theorem publish_seq_bounded_witness :
    publish_seq (List.replicate 21 ⟨false, WAIT_OBJECT_0, ⟨⟨0, 0⟩, EV_KEY, 30, 1⟩⟩)
        (List.replicate 20 ⟨0, 0, 0, 0⟩)
      = ((List.replicate 21 (⟨false, WAIT_OBJECT_0, ⟨⟨0, 0⟩, EV_KEY, 30, 1⟩⟩ : Publish)).take
            BUFFER_SIZE).map (fun p => wire_record p.has_rel p.ev)
          ++ (List.replicate 20 (⟨0, 0, 0, 0⟩ : LinuxInputEvent)).drop
            (min (List.replicate 21
              (⟨false, WAIT_OBJECT_0, ⟨⟨0, 0⟩, EV_KEY, 30, 1⟩⟩ : Publish)).length BUFFER_SIZE) ∧
    publish_event true WAIT_OBJECT_0 ⟨⟨5, 0⟩, EV_KEY, 272, 1⟩
        (publish_seq (List.replicate 21 ⟨false, WAIT_OBJECT_0, ⟨⟨0, 0⟩, EV_KEY, 30, 1⟩⟩)
          (List.replicate 20 ⟨0, 0, 0, 0⟩))
      = publish_seq (List.replicate 21 ⟨false, WAIT_OBJECT_0, ⟨⟨0, 0⟩, EV_KEY, 30, 1⟩⟩)
          (List.replicate 20 ⟨0, 0, 0, 0⟩) :=
  have h := (publish_seq_bounded
    (List.replicate 21 ⟨false, WAIT_OBJECT_0, ⟨⟨0, 0⟩, EV_KEY, 30, 1⟩⟩)
    (List.replicate 20 ⟨0, 0, 0, 0⟩) (by decide)).2 (by decide) (by decide)
  ⟨h.1, h.2 (by decide) ⟨true, WAIT_OBJECT_0, ⟨⟨5, 0⟩, EV_KEY, 272, 1⟩⟩⟩

/-- C6: the code of the record written for a forwarded event is the raw code
plus `0x3000` reduced to 16 bits when the device reports relative motion (the
scan-code table is not applied: raw code 103 from a mouse gives `0x3067`, not
`0xE048`), and `convert_scan_code` of the raw code otherwise. -/
theorem forwarded_code (has_rel : Bool) (ev : input_event)
    (shared : List LinuxInputEvent) (hlen : shared.length = BUFFER_SIZE)
    (hkey : ev.type = EV_KEY) (hval : ev.value ≠ 2)
    (hempty : ∃ x ∈ shared, x.type = 0) :
    (∃ i r, i < BUFFER_SIZE ∧ (shared.getD i ⟨0, 0, 0, 0⟩).type = 0 ∧
      (publish_event has_rel WAIT_OBJECT_0 ev shared).get? i = some r ∧
      r.code = (if has_rel = true then (ev.code + 0x3000) % 65536
                else convert_scan_code ev.code)) ∧
    translate_code true 103 = 0x3067 ∧ translate_code true 103 ≠ 0xE048 ∧
    translate_code false 103 = 0xE048 := by
  refine ⟨?_, by decide, by decide, by decide⟩
  rw [publish_event_forwarded has_rel ev shared (by omega) hkey hval]
  rcases fill_first_spec (wire_record has_rel ev) shared with ⟨hall, _⟩ | ⟨i, hi, h0, _, heq⟩
  · obtain ⟨x, hx, hx0⟩ := hempty
    exact absurd hx0 (hall x hx)
  · refine ⟨i, wire_record has_rel ev, by omega, h0, ?_, ?_⟩
    · rw [heq, List.get?_eq_getElem?, List.getElem?_set_self hi]
    · cases has_rel <;> simp [wire_record, translate_code, toUSHORT]

/-- Witness of C6: button code 103 from a mouse-class device published into an
all-empty channel. -/
theorem forwarded_code_witness :
    ∃ i r, i < BUFFER_SIZE ∧
      ((List.replicate 20 (⟨0, 0, 0, 0⟩ : LinuxInputEvent)).getD i ⟨0, 0, 0, 0⟩).type = 0 ∧
      (publish_event true WAIT_OBJECT_0 ⟨⟨0, 0⟩, EV_KEY, 103, 1⟩
        (List.replicate 20 ⟨0, 0, 0, 0⟩)).get? i = some r ∧
      r.code = (if true = true then (103 + 0x3000) % 65536 else convert_scan_code 103) :=
  (forwarded_code true ⟨⟨0, 0⟩, EV_KEY, 103, 1⟩ (List.replicate 20 ⟨0, 0, 0, 0⟩)
    (by decide) (by decide) (by decide) ⟨⟨0, 0, 0, 0⟩, by decide, rfl⟩).1

/-! ## Theorems: the device registry -/

/-- The release loop does not touch `devices`, only removes registrations, and
removes every registration on the descriptor of a released handle. -/
theorem release_devices_spec (ds : List libevdev) :
    ∀ s : State, (release_devices ds s).devices = s.devices ∧
      (∀ r ∈ (release_devices ds s).epoll,
        r ∈ s.epoll ∧ ∀ d ∈ ds, d.fd ≠ -1 → r.1 ≠ d.fd) ∧
      ∃ l, (release_devices ds s).calls = s.calls ++ l := by
  induction ds with
  | nil => intro s; exact ⟨rfl, fun r hr => ⟨hr, by simp⟩, [], by simp [release_devices]⟩
  | cons d ds ih =>
    intro s
    unfold release_devices
    by_cases hfd : d.fd ≠ -1
    · rw [if_pos hfd]
      obtain ⟨hdev, hep, l, hl⟩ := ih (sys_free (sys_close s d.fd) d)
      refine ⟨by rw [hdev]; rfl, ?_, [Call.close d.fd, Call.libevdev_free d] ++ l, ?_⟩
      · intro r hr
        obtain ⟨hmem, hrest⟩ := hep r hr
        have hmem2 : r ∈ s.epoll ∧ r.1 ≠ d.fd := by
          simpa [sys_free, sys_close] using hmem
        refine ⟨hmem2.1, ?_⟩
        intro d2 hd2 hne
        rcases List.mem_cons.mp hd2 with rfl | hd2
        · exact hmem2.2
        · exact hrest d2 hd2 hne
      · rw [hl]; simp [sys_free, sys_close]
    · rw [if_neg hfd]
      obtain ⟨hdev, hep, l, hl⟩ := ih s
      refine ⟨hdev, ?_, l, hl⟩
      intro r hr
      obtain ⟨hmem, hrest⟩ := hep r hr
      refine ⟨hmem, ?_⟩
      intro d2 hd2 hne
      rcases List.mem_cons.mp hd2 with rfl | hd2
      · exact absurd hne hfd
      · exact hrest d2 hd2 hne

/-- One step of the directory scan keeps "every tracked handle and every
registration has an eligible bus". -/
theorem scan_entry_eligible (s : State) (e : DirEntry)
    (hd : ∀ d ∈ s.devices, eligible_bus d.bustype)
    (hr : ∀ r ∈ s.epoll, eligible_bus r.2.bustype) :
    (∀ d ∈ (scan_entry s e).devices, eligible_bus d.bustype) ∧
    (∀ r ∈ (scan_entry s e).epoll, eligible_bus r.2.bustype) := by
  unfold scan_entry
  split
  · split
    · exact ⟨hd, hr⟩
    · split
      · refine ⟨hd, ?_⟩
        intro r hmem
        exact hr r (List.mem_of_mem_filter hmem)
      · split
        · rename_i hbus
          have hd2 : ∀ d ∈ s.devices ++ [e.dev], eligible_bus d.bustype := by
            intro d hmem
            rcases List.mem_append.mp hmem with hmem | hmem
            · exact hd d hmem
            · rw [List.mem_singleton.mp hmem]; exact hbus
          split
          · refine ⟨hd2, ?_⟩
            intro r hmem
            exact hr r (List.mem_of_mem_filter hmem)
          · refine ⟨hd2, ?_⟩
            intro r hmem
            rcases List.mem_append.mp hmem with hmem | hmem
            · exact hr r hmem
            · rw [List.mem_singleton.mp hmem]; exact hbus
        · refine ⟨hd, ?_⟩
          intro r hmem
          exact hr r (List.mem_of_mem_filter hmem)
  · exact ⟨hd, hr⟩

/-- The whole directory scan keeps the same invariant. -/
theorem scan_entries_eligible (entries : List DirEntry) :
    ∀ s : State, (∀ d ∈ s.devices, eligible_bus d.bustype) →
      (∀ r ∈ s.epoll, eligible_bus r.2.bustype) →
      (∀ d ∈ (entries.foldl scan_entry s).devices, eligible_bus d.bustype) ∧
      (∀ r ∈ (entries.foldl scan_entry s).epoll, eligible_bus r.2.bustype) := by
  induction entries with
  | nil => intro s hd hr; exact ⟨hd, hr⟩
  | cons e es ih =>
    intro s hd hr
    obtain ⟨hd2, hr2⟩ := scan_entry_eligible s e hd hr
    exact ih (scan_entry s e) hd2 hr2

/-- One step of the directory scan only appends to the record of calls. -/
theorem scan_entry_calls (s : State) (e : DirEntry) :
    ∃ l, (scan_entry s e).calls = s.calls ++ l := by
  unfold scan_entry
  split
  · split
    · exact ⟨[], by simp⟩
    · split
      · exact ⟨[Call.close e.fd], rfl⟩
      · split
        · split
          · exact ⟨[Call.libevdev_free e.dev, Call.close e.fd], by simp [sys_close, sys_free]⟩
          · exact ⟨[Call.epoll_add e.fd e.dev], rfl⟩
        · exact ⟨[Call.libevdev_free e.dev, Call.close e.fd], by simp [sys_close, sys_free]⟩
  · exact ⟨[], by simp⟩

/-- The directory scan only appends to the record of calls. -/
theorem scan_entries_calls (entries : List DirEntry) :
    ∀ s : State, ∃ l, (entries.foldl scan_entry s).calls = s.calls ++ l := by
  induction entries with
  | nil => intro s; exact ⟨[], by simp⟩
  | cons e es ih =>
    intro s
    obtain ⟨l1, h1⟩ := scan_entry_calls s e
    obtain ⟨l2, h2⟩ := ih (scan_entry s e)
    exact ⟨l1 ++ l2, by rw [List.foldl_cons, h2, h1, List.append_assoc]⟩

/-- A device node with an ineligible bus is freed and closed by its scan step. -/
theorem scan_entry_releases (s : State) (e : DirEntry)
    (hname : [ 'e', 'v', 'e', 'n', 't' ].isPrefixOf e.d_name = true)
    (hopen : e.fd ≠ -1) (hrc : 0 ≤ e.rc) (hbus : ¬ eligible_bus e.bustype) :
    (scan_entry s e).calls = s.calls ++ [Call.libevdev_free e.dev, Call.close e.fd] := by
  unfold scan_entry
  rw [if_pos hname, if_neg hopen, if_neg (by omega),
    if_neg (show ¬ (e.bustype = BUS_USB ∨ e.bustype = BUS_BLUETOOTH ∨ e.bustype = BUS_I8042)
      from hbus)]
  simp [sys_close, sys_free]

/-- Every ineligible device node of the directory is freed and closed during
the scan. -/
theorem scan_entries_releases (entries : List DirEntry) (e : DirEntry)
    (hname : [ 'e', 'v', 'e', 'n', 't' ].isPrefixOf e.d_name = true)
    (hopen : e.fd ≠ -1) (hrc : 0 ≤ e.rc) (hbus : ¬ eligible_bus e.bustype) :
    e ∈ entries → ∀ s : State, ∃ l, (entries.foldl scan_entry s).calls = s.calls ++ l ∧
      Call.libevdev_free e.dev ∈ l ∧ Call.close e.fd ∈ l := by
  induction entries with
  | nil => intro h; exact absurd h (List.not_mem_nil _)
  | cons e2 es ih =>
    intro hmem s
    rcases List.mem_cons.mp hmem with rfl | hmem
    · obtain ⟨l2, h2⟩ := scan_entries_calls es (scan_entry s e)
      refine ⟨[Call.libevdev_free e.dev, Call.close e.fd] ++ l2, ?_, by simp, by simp⟩
      rw [List.foldl_cons, h2, scan_entry_releases s e hname hopen hrc hbus, List.append_assoc]
    · obtain ⟨l1, h1⟩ := scan_entry_calls s e2
      obtain ⟨l2, h2, hf, hc⟩ := ih hmem (scan_entry s e2)
      refine ⟨l1 ++ l2, ?_, List.mem_append_right _ hf, List.mem_append_right _ hc⟩
      rw [List.foldl_cons, h2, h1, List.append_assoc]

/-- C8: after `update_input_devices` has scanned a directory, a device node whose
bus is not USB, Bluetooth or I8042 is not in `devices`, no registration of the
epoll instance points to it, and during the call its handle was freed and its
descriptor closed.  The registrations present before the call are assumed to
belong to tracked handles, as they do in every state the program reaches. -/
theorem ineligible_device_released (s : State) (entries : List DirEntry) (e : DirEntry)
    (hwf : ∀ r ∈ s.epoll, ∃ d ∈ s.devices, d.fd = r.1 ∧ d.fd ≠ -1)
    (hmem : e ∈ entries)
    (hname : [ 'e', 'v', 'e', 'n', 't' ].isPrefixOf e.d_name = true)
    (hopen : e.fd ≠ -1) (hrc : 0 ≤ e.rc)
    (hbus : e.bustype ≠ BUS_USB ∧ e.bustype ≠ BUS_BLUETOOTH ∧ e.bustype ≠ BUS_I8042) :
    (update_input_devices s (some entries)).2 = 0 ∧
    e.dev ∉ (update_input_devices s (some entries)).1.devices ∧
    (∀ r ∈ (update_input_devices s (some entries)).1.epoll, r.2 ≠ e.dev) ∧
    ∃ l, (update_input_devices s (some entries)).1.calls = s.calls ++ l ∧
      Call.libevdev_free e.dev ∈ l ∧ Call.close e.fd ∈ l := by
  have hnot : ¬ eligible_bus e.bustype := by
    intro h
    rcases h with h | h | h
    · exact hbus.1 h
    · exact hbus.2.1 h
    · exact hbus.2.2 h
  obtain ⟨_, hep, l0, hl0⟩ := release_devices_spec s.devices s
  have hnil : ∀ r ∈ (release_devices s.devices s).epoll, False := by
    intro r hr
    obtain ⟨hin, hno⟩ := hep r hr
    obtain ⟨d, hd, hfd, hne⟩ := hwf r hin
    exact hno d hd hne hfd.symm
  have hinv := scan_entries_eligible entries
    { release_devices s.devices s with devices := [] }
    (fun d hd => absurd hd (List.not_mem_nil _))
    (fun r hr => (hnil r hr).elim)
  obtain ⟨l1, hl1, hfree, hclose⟩ := scan_entries_releases entries e hname hopen hrc hnot hmem
    { release_devices s.devices s with devices := [] }
  refine ⟨rfl, ?_, ?_, l0 ++ l1, ?_, List.mem_append_right _ hfree,
    List.mem_append_right _ hclose⟩
  · intro hin
    exact hnot (hinv.1 e.dev hin)
  · intro r hr heq
    have h := hinv.2 r hr
    rw [heq] at h
    exact hnot h
  · show (entries.foldl scan_entry _).calls = _
    rw [hl1]
    show (release_devices s.devices s).calls ++ l1 = _
    rw [hl0, List.append_assoc]

/-- Witness of C8: a rescan while one USB keyboard is tracked and registered;
the directory holds a virtual device (bus `0x06`) and the keyboard. -/
theorem ineligible_device_released_witness :
    (update_input_devices ⟨[⟨100, 5, 3, false⟩], [(5, ⟨100, 5, 3, false⟩)], []⟩
      (some [⟨"event0".toList, 6, 0, 200, 6, false, 0⟩,
             ⟨"event1".toList, 7, 0, 300, 3, false, 0⟩])).1
      = ⟨[⟨300, 7, 3, false⟩], [(7, ⟨300, 7, 3, false⟩)],
          [Call.close 5, Call.libevdev_free ⟨100, 5, 3, false⟩,
           Call.libevdev_free ⟨200, 6, 6, false⟩, Call.close 6,
           Call.epoll_add 7 ⟨300, 7, 3, false⟩]⟩ ∧
    (⟨200, 6, 6, false⟩ : libevdev) ∉
      (update_input_devices ⟨[⟨100, 5, 3, false⟩], [(5, ⟨100, 5, 3, false⟩)], []⟩
        (some [⟨"event0".toList, 6, 0, 200, 6, false, 0⟩,
               ⟨"event1".toList, 7, 0, 300, 3, false, 0⟩])).1.devices :=
  ⟨by decide,
   (ineligible_device_released ⟨[⟨100, 5, 3, false⟩], [(5, ⟨100, 5, 3, false⟩)], []⟩
      [⟨"event0".toList, 6, 0, 200, 6, false, 0⟩, ⟨"event1".toList, 7, 0, 300, 3, false, 0⟩]
      ⟨"event0".toList, 6, 0, 200, 6, false, 0⟩
      (by decide) (by decide) (by decide) (by decide) (by decide) (by decide)).2.1⟩

/-- One step of the directory scan keeps "every registration is on the
descriptor of a tracked handle". -/
theorem scan_entry_registered (s : State) (e : DirEntry)
    (hwf : ∀ r ∈ s.epoll, ∃ d ∈ s.devices, d.fd = r.1 ∧ d.fd ≠ -1) :
    ∀ r ∈ (scan_entry s e).epoll, ∃ d ∈ (scan_entry s e).devices, d.fd = r.1 ∧ d.fd ≠ -1 := by
  unfold scan_entry
  split
  · split
    · exact hwf
    · rename_i hopen
      split
      · intro r hr
        exact hwf r (List.mem_of_mem_filter hr)
      · split
        · split
          · intro r hr
            obtain ⟨d, hd, h⟩ := hwf r (List.mem_of_mem_filter hr)
            exact ⟨d, List.mem_append_left _ hd, h⟩
          · intro r hr
            rcases List.mem_append.mp hr with hr | hr
            · obtain ⟨d, hd, h⟩ := hwf r hr
              exact ⟨d, List.mem_append_left _ hd, h⟩
            · rw [List.mem_singleton.mp hr]
              exact ⟨e.dev, List.mem_append_right _ (List.mem_singleton.mpr rfl), rfl, hopen⟩
        · intro r hr
          exact hwf r (List.mem_of_mem_filter hr)
  · exact hwf

/-- The property "every registration is on the descriptor of a tracked handle"
holds again after every rescan, so it holds in every state reached from the
start of `main`, where the interest list is empty. -/
theorem update_input_devices_registered (s : State) (dir : Option (List DirEntry))
    (hwf : ∀ r ∈ s.epoll, ∃ d ∈ s.devices, d.fd = r.1 ∧ d.fd ≠ -1) :
    ∀ r ∈ (update_input_devices s dir).1.epoll,
      ∃ d ∈ (update_input_devices s dir).1.devices, d.fd = r.1 ∧ d.fd ≠ -1 := by
  obtain ⟨_, hep, _⟩ := release_devices_spec s.devices s
  have hnil : ∀ r ∈ (release_devices s.devices s).epoll, False := by
    intro r hr
    obtain ⟨hin, hno⟩ := hep r hr
    obtain ⟨d, hd, hfd, hne⟩ := hwf r hin
    exact hno d hd hne hfd.symm
  cases dir with
  | none => intro r hr; exact (hnil r hr).elim
  | some entries =>
    show ∀ r ∈ (entries.foldl scan_entry _).epoll, ∃ d ∈ (entries.foldl scan_entry _).devices, _
    have hgen : ∀ (es : List DirEntry) (st : State),
        (∀ r ∈ st.epoll, ∃ d ∈ st.devices, d.fd = r.1 ∧ d.fd ≠ -1) →
        ∀ r ∈ (es.foldl scan_entry st).epoll,
          ∃ d ∈ (es.foldl scan_entry st).devices, d.fd = r.1 ∧ d.fd ≠ -1 := by
      intro es
      induction es with
      | nil => intro st h; exact h
      | cons e es ih => intro st h; exact ih (scan_entry st e) (scan_entry_registered st e h)
    exact hgen entries _ (fun r hr => (hnil r hr).elim)

/-! ## Theorems: the event loop -/

/-- C7 (the code on the failing path): when `epoll_wait` answers `-1` with an
`errno` other than `EINTR`, the loop is left by `break`, the teardown runs and
`main` returns 0, the exit code of a graceful shutdown. -/
theorem epoll_wait_failure_exit_code (it : Iteration) (rest : List Iteration) (st : State)
    (shared : List LinuxInputEvent) (hrun : it.should_quit = false)
    (hino : it.inotify_len ≤ 0) (hfail : it.nfds = -1) (herr : it.errno ≠ EINTR) :
    main_loop (it :: rest) st shared = some ⟨0, teardown st.devices st, shared⟩ := by
  unfold main_loop
  have h1 : ¬ it.inotify_len > 0 := by omega
  simp [hrun, h1, hfail, herr]

/-- Witness of C7: the stop flag is clear, nothing is pending on inotify, and
`epoll_wait` fails with `EBADF` (9) while one keyboard is tracked. -/
theorem epoll_wait_failure_exit_code_witness :
    main_loop [⟨false, -1, none, -1, 9, []⟩]
        ⟨[⟨100, 5, 3, false⟩], [(5, ⟨100, 5, 3, false⟩)], []⟩ (List.replicate 20 ⟨0, 0, 0, 0⟩)
      = some ⟨0, teardown [⟨100, 5, 3, false⟩]
          ⟨[⟨100, 5, 3, false⟩], [(5, ⟨100, 5, 3, false⟩)], []⟩,
          List.replicate 20 ⟨0, 0, 0, 0⟩⟩ :=
  epoll_wait_failure_exit_code ⟨false, -1, none, -1, 9, []⟩ []
    ⟨[⟨100, 5, 3, false⟩], [(5, ⟨100, 5, 3, false⟩)], []⟩ (List.replicate 20 ⟨0, 0, 0, 0⟩)
    rfl (by decide) rfl (by decide)

/-- C9 (the code at the failing input): a keyboard delivers one key press (code
30, value 1) and the next read answers `-EAGAIN` without an event; the drain
loop runs the publish block again on the stale `ev`, so the channel holds the
key press twice. -/
theorem drain_republishes_after_eagain :
    drain ⟨100, 5, 3, false⟩
        [⟨0, ⟨⟨0, 0⟩, 1, 30, 1⟩, none, 0⟩, ⟨-11, ⟨⟨0, 0⟩, 0, 0, 0⟩, none, 0⟩]
        ⟨⟨⟨0, 0⟩, 0, 0, 0⟩, ⟨[⟨100, 5, 3, false⟩], [(5, ⟨100, 5, 3, false⟩)], []⟩,
          List.replicate 20 ⟨0, 0, 0, 0⟩⟩
      = Except.ok ⟨⟨⟨0, 0⟩, 1, 30, 1⟩,
          ⟨[⟨100, 5, 3, false⟩], [(5, ⟨100, 5, 3, false⟩)],
            [Call.libevdev_has_event_pending ⟨100, 5, 3, false⟩,
             Call.libevdev_next_event ⟨100, 5, 3, false⟩,
             Call.libevdev_has_event_pending ⟨100, 5, 3, false⟩,
             Call.libevdev_next_event ⟨100, 5, 3, false⟩,
             Call.libevdev_has_event_pending ⟨100, 5, 3, false⟩]⟩,
          ⟨116444736000000000, 1, 30, 1⟩ :: ⟨116444736000000000, 1, 30, 1⟩
            :: List.replicate 18 ⟨0, 0, 0, 0⟩⟩ := by
  decide

/-- C10 (the code at the failing input): a tracked keyboard delivers one key
press, then a read answers `-ENODEV` and the rescan finds an empty directory.
The rescan closes and frees the handle; the drain loop does not leave: it runs
the publish block on the stale `ev` (the key press is in the channel twice) and
calls `libevdev_has_event_pending` on the freed handle again. -/
theorem drain_continues_after_enodev :
    drain ⟨100, 5, 3, false⟩
        [⟨0, ⟨⟨0, 0⟩, 1, 30, 1⟩, none, 0⟩, ⟨-19, ⟨⟨0, 0⟩, 0, 0, 0⟩, some [], 0⟩]
        ⟨⟨⟨0, 0⟩, 0, 0, 0⟩, ⟨[⟨100, 5, 3, false⟩], [(5, ⟨100, 5, 3, false⟩)], []⟩,
          List.replicate 20 ⟨0, 0, 0, 0⟩⟩
      = Except.ok ⟨⟨⟨0, 0⟩, 1, 30, 1⟩,
          ⟨[], [],
            [Call.libevdev_has_event_pending ⟨100, 5, 3, false⟩,
             Call.libevdev_next_event ⟨100, 5, 3, false⟩,
             Call.libevdev_has_event_pending ⟨100, 5, 3, false⟩,
             Call.libevdev_next_event ⟨100, 5, 3, false⟩,
             Call.close 5,
             Call.libevdev_free ⟨100, 5, 3, false⟩,
             Call.libevdev_has_event_pending ⟨100, 5, 3, false⟩]⟩,
          ⟨116444736000000000, 1, 30, 1⟩ :: ⟨116444736000000000, 1, 30, 1⟩
            :: List.replicate 18 ⟨0, 0, 0, 0⟩⟩ := by
  decide

end LinuxInput
